import Mathlib

/-!
Verification development for the FORGE EditableCell inline-editing core
(`EditableCell` class: edit state machine, change tracking, validation,
list sub-editor, row navigation, dependent-field recalculation).

The JavaScript source is shallowly embedded: DOM mutation is modelled as
explicit data (the cell display, an update list for recalculated cells),
the JS `Map` objects `AppState.changes` and `AppState.originalData` are
modelled as insertion-ordered association lists with `Map.set` /
`Map.delete` semantics, and the platform functions `parseFloat`,
`String.prototype.trim` and `String.prototype.split` are modelled over
rationals and character lists.  `Date.parse` and the host date-duration
computation are abstracted as parameters, since their behaviour is
platform-defined and no claim depends on their internals.
-/

namespace Forge

/-- Whitespace characters skipped by the modelled JS string primitives. -/
def jsWsChar (c : Char) : Bool :=
  c = ' ' || c = '\t' || c = '\n' || c = '\r' || c = '\x0b' || c = '\x0c'

/-- Decimal digit test. -/
def isDigitChar (c : Char) : Bool :=
  '0' ≤ c && c ≤ '9'

/-- Numeric value of a decimal digit string, most significant first. -/
def digitsToNat (ds : List Char) : Nat :=
  ds.foldl (fun a c => a * 10 + (c.toNat - '0'.toNat)) 0

/-- Test whether the second character list starts with the first one. -/
def startsWithChars : List Char → List Char → Bool
  | [], _ => true
  | _ :: _, [] => false
  | a :: as, b :: bs => a = b && startsWithChars as bs

/-- Exact rational number in gcd-normalized form (positive denominator,
numerator and denominator coprime), standing in for the JS double in all
finite computations of this development; every operation below
re-normalizes, so structural equality of results coincides with numeric
equality.  IEEE rounding is not modelled — all values in the claims are
small and exact. -/
structure Q where
  num : Int
  den : Nat
deriving DecidableEq, Repr

/-- Normalized rational `n / d` (for `d ≠ 0`). -/
def Q.norm (n : Int) (d : Nat) : Q :=
  if d = 0 then ⟨0, 1⟩
  else
    let g := Nat.gcd n.natAbs d
    if n < 0 then ⟨-((n.natAbs / g : Nat) : Int), d / g⟩
    else ⟨((n.natAbs / g : Nat) : Int), d / g⟩

/-- Rational from a natural number. -/
def Q.ofNat (n : Nat) : Q := ⟨(n : Int), 1⟩

/-- Rational addition. -/
def Q.add (a b : Q) : Q :=
  Q.norm (a.num * (b.den : Int) + b.num * (a.den : Int)) (a.den * b.den)

/-- Rational multiplication. -/
def Q.mul (a b : Q) : Q :=
  Q.norm (a.num * b.num) (a.den * b.den)

/-- Rational division (caller guards against a zero divisor; a zero
divisor collapses to 0 here, a case no claim exercises). -/
def Q.div (a b : Q) : Q :=
  if b.num < 0 then Q.norm (-(a.num * (b.den : Int))) (a.den * b.num.natAbs)
  else Q.norm (a.num * (b.den : Int)) (a.den * b.num.natAbs)

/-- Rational negation. -/
def Q.neg (a : Q) : Q := ⟨-a.num, a.den⟩

/-- Test `0 ≤ a` (the denominator is positive by construction). -/
def Q.isNonneg (a : Q) : Bool := 0 ≤ a.num

/-- Test `a = 0`. -/
def Q.isZero (a : Q) : Bool := a.num = 0

/-- Result of the JS `parseFloat` coercion: not-a-number, a signed
infinity, or a finite value represented exactly as a rational. -/
inductive JSNum where
  | nan : JSNum
  | posInf : JSNum
  | negInf : JSNum
  | fin : Q → JSNum
deriving DecidableEq, Repr

/-- Model of JS `parseFloat`: skip leading whitespace, read an optional
sign, accept an `Infinity` literal, otherwise read the longest decimal
literal (integer part, optional fraction, optional exponent); return
`nan` when no digits are found.  Finite values are exact rationals; IEEE
rounding is not modelled (all values in this development are small). -/
def parseFloat (s : String) : JSNum :=
  let cs := s.data.dropWhile jsWsChar
  let signed : Bool × List Char :=
    match cs with
    | '-' :: r => (true, r)
    | '+' :: r => (false, r)
    | _ => (false, cs)
  let neg := signed.1
  let cs := signed.2
  if startsWithChars "Infinity".data cs then
    if neg then JSNum.negInf else JSNum.posInf
  else
    let ip := cs.takeWhile isDigitChar
    let cs1 := cs.dropWhile isDigitChar
    let fpRest : List Char × List Char :=
      match cs1 with
      | '.' :: r => (r.takeWhile isDigitChar, r.dropWhile isDigitChar)
      | _ => ([], cs1)
    let fp := fpRest.1
    let cs2 := fpRest.2
    if ip.isEmpty && fp.isEmpty then JSNum.nan
    else
      let mant : Q :=
        Q.add (Q.ofNat (digitsToNat ip))
          (Q.div (Q.ofNat (digitsToNat fp)) (Q.ofNat (10 ^ fp.length)))
      let expPart : Bool × List Char :=
        match cs2 with
        | 'e' :: r | 'E' :: r =>
          match r with
          | '-' :: r2 => (true, r2.takeWhile isDigitChar)
          | '+' :: r2 => (false, r2.takeWhile isDigitChar)
          | _ => (false, r.takeWhile isDigitChar)
        | _ => (false, [])
      let v : Q :=
        if expPart.2.isEmpty then mant
        else if expPart.1 then Q.div mant (Q.ofNat (10 ^ digitsToNat expPart.2))
        else Q.mul mant (Q.ofNat (10 ^ digitsToNat expPart.2))
      JSNum.fin (if neg then Q.neg v else v)

/-- JS comparison `x >= 0` on a `parseFloat` result: false for `NaN`,
true for `+Infinity`. -/
def JSNum.geZero : JSNum → Bool
  | JSNum.nan => false
  | JSNum.posInf => true
  | JSNum.negInf => false
  | JSNum.fin q => q.isNonneg

/-- Test for the JS `isNaN` check applied to a `parseFloat` result. -/
def JSNum.isNaNum : JSNum → Bool
  | JSNum.nan => true
  | _ => false

/-- Finite numeric content of a `parseFloat` result, with the non-finite
cases collapsed to 0 (used only by the spec-modelled compute functions,
whose inputs are plain numerals). -/
def JSNum.toQOrZero : JSNum → Q
  | JSNum.fin q => q
  | _ => Q.ofNat 0

/-- Model of JS `String.prototype.trim` (ASCII whitespace). -/
def jsTrim (s : String) : String :=
  String.mk (((s.data.dropWhile jsWsChar).reverse.dropWhile jsWsChar).reverse)

/-- Split a character list at each non-overlapping occurrence of the two
character separator `::`, scanning left to right, as JS
`key.split(\x22::\x22)` does. -/
def splitCC : List Char → List Char → List (List Char)
  | [], acc => [acc.reverse]
  | ':' :: ':' :: rest, acc => acc.reverse :: splitCC rest []
  | c :: rest, acc => splitCC rest (c :: acc)

/-- First two components of `key.split(\x22::\x22)`, as bound by the JS
destructuring `const [optId, fieldKey] = key.split(\x22::\x22)`; a
missing component is modelled as the empty string. -/
def jsSplit2 (key : String) : String × String :=
  let parts := splitCC key.data []
  (String.mk (parts.getD 0 []), String.mk (parts.getD 1 []))

/-- Insertion-ordered association list standing for a JS `Map`:
`set` overwrites in place when the key exists and appends otherwise. -/
def mapSet {α : Type} (m : List (String × α)) (k : String) (v : α) : List (String × α) :=
  match m with
  | [] => [(k, v)]
  | (k', v') :: rest => if k' = k then (k, v) :: rest else (k', v') :: mapSet rest k v

/-- JS `Map.delete`: remove the entry for the key, if any. -/
def mapDelete {α : Type} (m : List (String × α)) (k : String) : List (String × α) :=
  match m with
  | [] => []
  | (k', v') :: rest => if k' = k then rest else (k', v') :: mapDelete rest k

/-- JS `Map.has`. -/
def mapHas {α : Type} (m : List (String × α)) (k : String) : Bool :=
  match m with
  | [] => false
  | (k', _) :: rest => k' = k || mapHas rest k

/-- JS `Map.get`, `none` standing for `undefined`. -/
def mapGet {α : Type} (m : List (String × α)) (k : String) : Option α :=
  match m with
  | [] => none
  | (k', v') :: rest => if k' = k then some v' else mapGet rest k

/-- Field types handled by `EditableCell.createInput` and
`EditableCell.validate` (the `data-field-type` attribute). -/
inductive FieldType where
  | text : FieldType
  | number : FieldType
  | date : FieldType
  | price : FieldType
  | select : FieldType
deriving DecidableEq, Repr

/-- Content of a cell element (`element.innerHTML`), abstracted: either
rendered markup, the in-place editor input, or the formatted display of a
committed raw value (the host globals `formatDate` and `formatPrice` used
by `formatDisplay` are outside `src` and are abstracted away since no
claim depends on the produced markup). -/
inductive Display where
  | html : String → Display
  | editor : Display
  | formatted : String → Display
deriving DecidableEq, Repr

/-- Per-cell controller state of one `EditableCell` instance: the data
attributes captured by the constructor, the `isEditing` flag, the
`changed` and `editing` CSS classes, and the element content. -/
structure Cell where
  optionId : String
  fieldKey : String
  fieldType : FieldType
  originalValue : String
  currentValue : String
  isEditing : Bool
  changedClass : Bool
  editingClass : Bool
  display : Display
  originalDisplayHTML : Display
deriving DecidableEq, Repr

/-- Cell key `this.optionId ++ \x22::\x22 ++ this.fieldKey` used in
`AppState.changes` and `AppState.originalData`. -/
def cellKey (c : Cell) : String :=
  c.optionId ++ "::" ++ c.fieldKey

/-- Property value of a loaded option record: baseline values may be
numbers, while `AppState.changes` overrides are always strings. -/
inductive JSValue where
  | str : String → JSValue
  | num : Q → JSValue
deriving DecidableEq, Repr

/-- One entry of `AppState.loadedOptions`: an id (`binId`) and a bag of
field properties. -/
structure OptionRec where
  binId : String
  fields : List (String × JSValue)
deriving DecidableEq, Repr

/-- JS property read `option[k]`. -/
def getField (o : OptionRec) (k : String) : Option JSValue :=
  mapGet o.fields k

/-- JS property write `option[k] = v`. -/
def setField (o : OptionRec) (k : String) (v : JSValue) : OptionRec :=
  { o with fields := mapSet o.fields k v }

/-- Relevant parts of the global `AppState` object: the two change
tracking maps, the edit-mode flag and the loaded option records. -/
structure AppState where
  changes : List (String × String)
  originalData : List (String × String)
  editMode : Bool
  loadedOptions : List OptionRec
deriving DecidableEq, Repr

/-- Numeric reading of a working-option field used by the spec-modelled
compute functions: baseline numbers are used as is, string overrides are
coerced through the `parseFloat` model, and a missing field counts as 0. -/
def numField (o : OptionRec) (k : String) : Q :=
  match getField o k with
  | some (JSValue.num q) => q
  | some (JSValue.str s) => (parseFloat s).toQOrZero
  | none => Q.ofNat 0

/-- Modelled from the spec: the `grandTotal` compute function of the host
global `COMPARISON_FIELDS` (absent from `src`), per the dependency table
`{packagePrice, flightsTotal, prePostHotelsTotal, additionalCosts} →
{grandTotal}`: the sum of the four pricing inputs. -/
def calcGrandTotal (o : OptionRec) : Q :=
  Q.add (Q.add (Q.add (numField o "packagePrice") (numField o "flightsTotal"))
      (numField o "prePostHotelsTotal"))
    (numField o "additionalCosts")

/-- Modelled from the spec: the `pricePerPerson` compute function of the
host global `COMPARISON_FIELDS` (absent from `src`), per the dependency
table `{grandTotal, guests} → {pricePerPerson}`: the grand total divided
by the guest count, 0 when the guest count is 0. -/
def calcPricePerPerson (o : OptionRec) : Q :=
  let n := numField o "guests"
  if n.isZero then Q.ofNat 0 else Q.div (numField o "grandTotal") n

/-- Overlay loop of `updateDependentFields` (lines 519-525): fold the
`AppState.changes` map over a copy of the option, writing each override
whose key splits to this option id onto the working copy. -/
def applyChanges (option : OptionRec) (changes : List (String × String))
    (optionId : String) : OptionRec :=
  changes.foldl
    (fun w kv =>
      if (jsSplit2 kv.1).1 = optionId then
        setField w (jsSplit2 kv.1).2 (JSValue.str kv.2)
      else w)
    option

/-- Entries of a change map whose key splits to the given option id (the
`entriesFor` accessor of the spec, as realised by the overlay filter). -/
def entriesFor (optionId : String) (changes : List (String × String)) :
    List (String × String) :=
  changes.filter (fun kv => (jsSplit2 kv.1).1 = optionId)

/-- Recalculation driver `EditableCell.updateDependentFields` (lines
513-553).  The DOM pushes done by `updateCalculatedCell` are modelled as
the returned list of `(derived field key, recomputed value)` pairs in
execution order; the duration compute of `COMPARISON_FIELDS` is the
parameter `dur` (date arithmetic is host-defined).  The trigger lists are
the ones in the source: `pricingFields = [packagePrice, flightsPrice,
guests]` and `dateFields = [startDate, endDate]`; a pricing trigger first
overwrites `grandTotal` on the working option and then recomputes both
displays from that mutated working option, and a `guests` trigger
additionally recomputes `pricePerPerson` a second time. -/
def updateDependentFields (dur : OptionRec → Q) (opts : List OptionRec)
    (changes : List (String × String)) (optionId fieldKey : String) :
    List (String × Q) :=
  match opts.find? (fun o => o.binId == optionId) with
  | none => []
  | some option =>
    let workingOption := applyChanges option changes optionId
    let pricingFields := ["packagePrice", "flightsPrice", "guests"]
    let dateFields := ["startDate", "endDate"]
    let working2 :=
      if pricingFields.contains fieldKey then
        setField workingOption "grandTotal" (JSValue.num (calcGrandTotal workingOption))
      else workingOption
    let part1 :=
      if pricingFields.contains fieldKey then
        [("grandTotal", calcGrandTotal working2),
         ("pricePerPerson", calcPricePerPerson working2)]
      else []
    let part2 :=
      if dateFields.contains fieldKey then [("duration", dur working2)] else []
    let part3 :=
      if fieldKey = "guests" then [("pricePerPerson", calcPricePerPerson working2)] else []
    part1 ++ part2 ++ part3

/-- Working option after the in-place mutation `workingOption.grandTotal
= grandTotalField.calculate(workingOption)` of lines 533-536: the overlay
result with the freshly recomputed grand total written back. -/
def freshWorking (o : OptionRec) (changes : List (String × String))
    (optId : String) : OptionRec :=
  setField (applyChanges o changes optId) "grandTotal"
    (JSValue.num (calcGrandTotal (applyChanges o changes optId)))

/-- Validation `EditableCell.validate` (lines 418-433).  `dp` models the
platform `Date.parse` succeeding (`!isNaN(Date.parse(value))`); the
`value === null` alternative of the source cannot arise here because
input values are strings. -/
def validate (dp : String → Bool) (ft : FieldType) (value : String) : Bool :=
  match ft with
  | FieldType.date =>
    if value = "" then true else dp value
  | FieldType.price | FieldType.number =>
    if value = "" then true
    else
      let num := parseFloat value
      !num.isNaNum && num.geZero
  | _ => true

/-- Cancellation `EditableCell.cancelEdit` (lines 461-468): a no-op
unless `isEditing`, otherwise clear the flag, drop the `editing` class
and restore the stored pre-edit display. -/
def cancelEdit (c : Cell) : Cell :=
  if c.isEditing = false then c
  else
    { c with
      isEditing := false
      editingClass := false
      display := c.originalDisplayHTML }

/-- Activation `EditableCell.enterEditMode` (lines 48-61): a no-op when
already editing, otherwise store the current display for cancel, replace
the content with the editor input and mark the editing state. -/
def enterEditMode (c : Cell) : Cell :=
  if c.isEditing then c
  else
    { c with
      isEditing := true
      originalDisplayHTML := c.display
      display := Display.editor
      editingClass := true }

/-- Outcome of one commit attempt: the resulting global state and cell,
whether the invalid-value toast was raised, and the dependent-field
updates pushed by `updateDependentFields`. -/
structure SaveResult where
  state : AppState
  cell : Cell
  toast : Bool
  updates : List (String × Q)
deriving DecidableEq, Repr

/-- Commit `EditableCell.saveValue` (lines 373-416), translated
statement by statement: bail out unless editing; clear `isEditing` and
the `editing` class; on validation failure raise the toast and call
`cancelEdit` (which, `isEditing` being already cleared, returns without
restoring the display); otherwise store the raw value, insert or delete
the change-map entries and the `changed` class according to strict string
inequality with the original value, re-render the formatted display, and
run `updateDependentFields` on the mutated state. -/
def saveValue (dp : String → Bool) (dur : OptionRec → Q) (st : AppState)
    (c : Cell) (newValue : String) : SaveResult :=
  if c.isEditing = false then ⟨st, c, false, []⟩
  else
    let c1 := { c with isEditing := false, editingClass := false }
    if validate dp c1.fieldType newValue = false then
      ⟨st, cancelEdit c1, true, []⟩
    else
      let c2 := { c1 with currentValue := newValue }
      let key := cellKey c2
      if newValue ≠ c2.originalValue then
        let st1 :=
          { st with
            changes := mapSet st.changes key newValue
            originalData :=
              if mapHas st.originalData key then st.originalData
              else mapSet st.originalData key c2.originalValue }
        let c3 := { c2 with changedClass := true, display := Display.formatted newValue }
        ⟨st1, c3, false,
          updateDependentFields dur st1.loadedOptions st1.changes c3.optionId c3.fieldKey⟩
      else
        let st1 :=
          { st with
            changes := mapDelete st.changes key
            originalData := mapDelete st.originalData key }
        let c3 := { c2 with changedClass := false, display := Display.formatted newValue }
        ⟨st1, c3, false,
          updateDependentFields dur st1.loadedOptions st1.changes c3.optionId c3.fieldKey⟩

/-- Escape-key path of the keydown handler (lines 93-95): only
`cancelEdit` runs; the typed input value is discarded, no toast, no
change-map access, no dependent recomputation. -/
def onEscape (st : AppState) (c : Cell) (typed : String) : SaveResult :=
  let _ := typed
  ⟨st, cancelEdit c, false, []⟩

/-- Model of JS `value.split(\x22,\x22)`: cut the character list at
every comma. -/
def splitComma : List Char → List Char → List String
  | [], acc => [String.mk acc.reverse]
  | ',' :: rest, acc => String.mk acc.reverse :: splitComma rest []
  | c :: rest, acc => splitComma rest (c :: acc)

/-- Parsing of a stored list value into editor items
(`createListEditor`, lines 184-186): falsy (empty) value gives no items,
otherwise split on `,`, trim each piece and drop the empties. -/
def parseListValue (s : String) : List String :=
  if s = "" then []
  else ((splitComma s.data []).map jsTrim).filter (fun v => v ≠ "")

/-- Item removal `removeListItem` (line 347): `splice(index, 1)`. -/
def removeListItem (items : List String) (index : Nat) : List String :=
  items.eraseIdx index

/-- List commit `saveListValue` (lines 360-371): re-collect the item
input values, trim each, drop the empties, join with a comma-space and
forward the joined string to `saveValue`. -/
def saveListValue (dp : String → Bool) (dur : OptionRec → Q) (st : AppState)
    (c : Cell) (items : List String) : SaveResult :=
  let collected := (items.map jsTrim).filter (fun v => v ≠ "")
  saveValue dp dur st c (String.intercalate ", " collected)

/-- Row navigation `moveToNextCell` (lines 470-511) over the authored
order of the editable cells of one row, identified here by strings:
locate the just-committed cell by first index, step one position forward
or backward, and return the cell whose click is scheduled, or `none` at a
row boundary. -/
def moveToNextCell (cells : List String) (current : String) (reverse : Bool) :
    Option String :=
  match cells.findIdx? (fun x => x == current) with
  | none => none
  | some i =>
    if reverse then
      if i = 0 then none else cells.get? (i - 1)
    else
      if i + 1 ≥ cells.length then none else cells.get? (i + 1)

/-- Session-level view of the editing flags of the cells of one grid, for
the single-editor claim: which cells currently have `isEditing = true`,
which cell owns the input focus, and the queue of deferred blur-commit
tasks (each blur handler, lines 79-86, schedules a `setTimeout` that
commits the cell if it is still editing when the timer fires). -/
structure SessState where
  editing : List Bool
  focused : Option Nat
  pending : List Nat
deriving DecidableEq, Repr

/-- Initial session: every cell in Viewing, no focus, no pending task. -/
def SessState.init (n : Nat) : SessState :=
  ⟨List.replicate n false, none, []⟩

/-- Effect of a user click on cell `j` with edit mode on: the DOM first
fires `blur` on the previously focused input (whose handler enqueues a
deferred commit task for that cell), then the click handler runs — if the
clicked cell is not already editing, `enterEditMode` sets its editing
flag immediately, without waiting for the deferred commit; focus moves to
the clicked cell. -/
def clickStep (s : SessState) (j : Nat) : SessState :=
  let pending' :=
    match s.focused with
    | some i => if i = j then s.pending else s.pending ++ [i]
    | none => s.pending
  if s.editing.getD j false then
    { s with pending := pending', focused := some j }
  else
    { editing := s.editing.set j true, focused := some j, pending := pending' }

/-- Effect of the earliest deferred blur task firing: if the cell is
still editing, `saveValue` commits it (clearing `isEditing` as its first
action) and its re-rendered content releases any focus it still held;
otherwise the task does nothing. -/
def fireStep (s : SessState) : SessState :=
  match s.pending with
  | [] => s
  | i :: rest =>
    if s.editing.getD i false then
      { editing := s.editing.set i false
        focused := if s.focused = some i then none else s.focused
        pending := rest }
    else
      { s with pending := rest }

/-- Reachable session states: the initial state, closed under user
clicks and deferred-task firings. -/
inductive Reach (n : Nat) : SessState → Prop where
  | init : Reach n (SessState.init n)
  | click (s : SessState) (j : Nat) : Reach n s → Reach n (clickStep s j)
  | fire (s : SessState) : Reach n s → Reach n (fireStep s)

/-- Single-editor property: no two distinct cells are in Editing state. -/
def atMostOneEditing (s : SessState) : Prop :=
  ∀ i j : Nat, s.editing.getD i false = true → s.editing.getD j false = true → i = j

/-- Key-uniqueness representation invariant of a JS `Map` modelled as an
association list. -/
def uniqKeys {α : Type} (m : List (String × α)) : Prop :=
  (m.map Prod.fst).Nodup

/-- Session invariant: every cell still in Editing either owns the focus
or has a deferred blur-commit task queued for it. -/
def SessInv (s : SessState) : Prop :=
  ∀ i : Nat, s.editing.getD i false = true → s.focused = some i ∨ i ∈ s.pending

/-- Equality rule claimed by the spec per field type: trim equality for
text-like types, numeric equality (through `parseFloat`) for number and
price, ISO-string equality for date.  This definition follows the words
of the spec, to be compared with the strict string inequality the source
actually uses. -/
def specEqualUnderTypeRule (ft : FieldType) (a b : String) : Bool :=
  match ft with
  | FieldType.number | FieldType.price => parseFloat a == parseFloat b
  | FieldType.date => a == b
  | _ => jsTrim a == jsTrim b

/-- Validation predicate exactly as the claim states it: for number and
price a non-empty value must parse to a finite number that is at least 0.
This definition follows the words of the spec, to be compared with the
source validation. -/
def acceptsClaim (dp : String → Bool) (ft : FieldType) (v : String) : Prop :=
  match ft with
  | FieldType.date => v = "" ∨ dp v = true
  | FieldType.number | FieldType.price =>
    v = "" ∨ ∃ q : Q, parseFloat v = JSNum.fin q ∧ q.isNonneg = true
  | _ => True

/-- Validation predicate with the finiteness requirement dropped: a
non-empty number or price value must parse to a finite number at least 0
or to positive infinity (which the source accepts, since it only checks
`!isNaN(num) && num >= 0`). -/
def acceptsAmended (dp : String → Bool) (ft : FieldType) (v : String) : Prop :=
  match ft with
  | FieldType.date => v = "" ∨ dp v = true
  | FieldType.number | FieldType.price =>
    v = "" ∨ (∃ q : Q, parseFloat v = JSNum.fin q ∧ q.isNonneg = true) ∨ parseFloat v = JSNum.posInf
  | _ => True

/-- Trivial stand-in for the platform `Date.parse` succeeding (claims
never depend on which date strings parse). -/
def dp0 : String → Bool := fun _ => false

/-- Trivial stand-in for the host duration compute (claims never depend
on its value). -/
def dur0 : OptionRec → Q := fun _ => Q.ofNat 0

/-- Empty tracking state with edit mode on and no loaded options. -/
def emptyState : AppState :=
  { changes := [], originalData := [], editMode := true, loadedOptions := [] }

/-- Concrete number cell in Editing state with original value `5`. -/
def numCell : Cell :=
  { optionId := "opt1", fieldKey := "guests", fieldType := FieldType.number,
    originalValue := "5", currentValue := "5", isEditing := true,
    changedClass := false, editingClass := true, display := Display.editor,
    originalDisplayHTML := Display.html "5" }

/-- Concrete number cell in Viewing state, about to be activated. -/
def viewCell : Cell :=
  { optionId := "opt1", fieldKey := "guests", fieldType := FieldType.number,
    originalValue := "2", currentValue := "2", isEditing := false,
    changedClass := false, editingClass := false, display := Display.html "2",
    originalDisplayHTML := Display.html "" }

/-- Concrete list-field cell (list fields carry the default text type)
in Editing state, stored value `A, B, C`. -/
def listCell : Cell :=
  { optionId := "opt1", fieldKey := "inclusions", fieldType := FieldType.text,
    originalValue := "A, B, C", currentValue := "A, B, C", isEditing := true,
    changedClass := false, editingClass := true, display := Display.editor,
    originalDisplayHTML := Display.html "items" }

/-- Concrete baseline option of the dependency-ordering example: the
stored `grandTotal` of 5000 is stale once `packagePrice` is committed. -/
def tripOption : OptionRec :=
  { binId := "opt1",
    fields :=
      [("packagePrice", JSValue.num (Q.ofNat 4000)), ("flightsTotal", JSValue.num (Q.ofNat 1000)),
       ("prePostHotelsTotal", JSValue.num (Q.ofNat 0)), ("additionalCosts", JSValue.num (Q.ofNat 0)),
       ("guests", JSValue.num (Q.ofNat 2)), ("grandTotal", JSValue.num (Q.ofNat 5000))] }

/-- Tracking state holding the option of the recalculation example. -/
def tripState : AppState :=
  { changes := [], originalData := [], editMode := true, loadedOptions := [tripOption] }

/-- Concrete price cell for `packagePrice` of the example option. -/
def ppCell : Cell :=
  { optionId := "opt1", fieldKey := "packagePrice", fieldType := FieldType.price,
    originalValue := "4000", currentValue := "4000", isEditing := true,
    changedClass := false, editingClass := true, display := Display.editor,
    originalDisplayHTML := Display.html "4000" }

/-- Concrete price cell for `flightsTotal` of the example option. -/
def ftCell : Cell :=
  { optionId := "opt1", fieldKey := "flightsTotal", fieldType := FieldType.price,
    originalValue := "1000", currentValue := "1000", isEditing := true,
    changedClass := false, editingClass := true, display := Display.editor,
    originalDisplayHTML := Display.html "1000" }

/-- Change maps of the entity-scoping witness: they differ only in an
entry belonging to another entity. -/
def scopeChanges1 : List (String × String) :=
  [("opt1::packagePrice", "5000"), ("other::guests", "9")]

/-- Restriction of `scopeChanges1` to the entries of entity `opt1`. -/
def scopeChanges2 : List (String × String) :=
  [("opt1::packagePrice", "5000")]

/-- Tracking state of the two-map witness: one prior divergent change
for the `opt1::guests` cell, anchored at the original value `5`. -/
def trackedState : AppState :=
  { changes := [("opt1::guests", "7")], originalData := [("opt1::guests", "5")],
    editMode := true, loadedOptions := [] }

theorem mapHas_eq_false_of_not_mem {α : Type} (m : List (String × α)) (k : String)
    (h : k ∉ m.map Prod.fst) : mapHas m k = false := by
  induction m with
  | nil => rfl
  | cons a rest ih =>
    obtain ⟨k', v'⟩ := a
    simp only [List.map_cons, List.mem_cons, not_or] at h
    simp [mapHas, ih h.2, Ne.symm h.1]

theorem mapHas_set_self {α : Type} (m : List (String × α)) (k : String) (v : α) :
    mapHas (mapSet m k v) k = true := by
  induction m with
  | nil => simp [mapSet, mapHas]
  | cons a rest ih =>
    obtain ⟨k', v'⟩ := a
    by_cases h : k' = k <;> simp [mapSet, mapHas, h, ih]

theorem mapGet_set_self {α : Type} (m : List (String × α)) (k : String) (v : α) :
    mapGet (mapSet m k v) k = some v := by
  induction m with
  | nil => simp [mapSet, mapGet]
  | cons a rest ih =>
    obtain ⟨k', v'⟩ := a
    by_cases h : k' = k <;> simp [mapSet, mapGet, h, ih]

theorem mapHas_set_ne {α : Type} (m : List (String × α)) (k k' : String) (v : α)
    (h : k' ≠ k) : mapHas (mapSet m k v) k' = mapHas m k' := by
  induction m with
  | nil => simp [mapSet, mapHas, Ne.symm h]
  | cons a rest ih =>
    obtain ⟨k'', v''⟩ := a
    by_cases h2 : k'' = k
    · subst h2
      simp [mapSet, mapHas, Ne.symm h]
    · simp [mapSet, mapHas, h2, ih]

theorem mapGet_set_ne {α : Type} (m : List (String × α)) (k k' : String) (v : α)
    (h : k' ≠ k) : mapGet (mapSet m k v) k' = mapGet m k' := by
  induction m with
  | nil => simp [mapSet, mapGet, Ne.symm h]
  | cons a rest ih =>
    obtain ⟨k'', v''⟩ := a
    by_cases h2 : k'' = k
    · subst h2
      simp [mapSet, mapGet, Ne.symm h]
    · simp [mapSet, mapGet, h2, ih]

theorem mapHas_delete_self {α : Type} (m : List (String × α)) (k : String)
    (hu : uniqKeys m) : mapHas (mapDelete m k) k = false := by
  induction m with
  | nil => simp [mapDelete, mapHas]
  | cons a rest ih =>
    obtain ⟨k', v'⟩ := a
    rw [uniqKeys, List.map_cons, List.nodup_cons] at hu
    by_cases h : k' = k
    · subst h
      have hd : mapDelete ((k', v') :: rest) k' = rest := by simp [mapDelete]
      rw [hd]
      exact mapHas_eq_false_of_not_mem rest k' hu.1
    · simp [mapDelete, mapHas, h, ih hu.2]

theorem mapHas_delete_ne {α : Type} (m : List (String × α)) (k k' : String)
    (h : k' ≠ k) : mapHas (mapDelete m k) k' = mapHas m k' := by
  induction m with
  | nil => simp [mapDelete]
  | cons a rest ih =>
    obtain ⟨k'', v''⟩ := a
    by_cases h2 : k'' = k
    · subst h2
      simp [mapDelete, mapHas, Ne.symm h]
    · simp [mapDelete, mapHas, h2, ih]

theorem mapGet_delete_ne {α : Type} (m : List (String × α)) (k k' : String)
    (h : k' ≠ k) : mapGet (mapDelete m k) k' = mapGet m k' := by
  induction m with
  | nil => simp [mapDelete]
  | cons a rest ih =>
    obtain ⟨k'', v''⟩ := a
    by_cases h2 : k'' = k
    · subst h2
      simp [mapDelete, mapGet, Ne.symm h]
    · simp [mapDelete, mapGet, h2, ih]

theorem mapHas_false_of_nil {α : Type} (k : String) :
    mapHas ([] : List (String × α)) k = false := rfl

theorem applyChanges_eq_foldl_entriesFor (o : OptionRec)
    (ch : List (String × String)) (optId : String) :
    applyChanges o ch optId =
      (entriesFor optId ch).foldl
        (fun w kv => setField w (jsSplit2 kv.1).2 (JSValue.str kv.2)) o := by
  induction ch generalizing o with
  | nil => rfl
  | cons kv rest ih =>
    by_cases h : (jsSplit2 kv.1).1 = optId
    · simp [applyChanges, entriesFor, h, List.foldl_cons] at ih ⊢
      exact ih _
    · simp [applyChanges, entriesFor, h, List.foldl_cons] at ih ⊢
      exact ih _

theorem getD_replicate_false (n i : Nat) :
    (List.replicate n false).getD i false = false := by
  induction n generalizing i with
  | zero => simp [List.getD]
  | succ m ih =>
    cases i with
    | zero => simp [List.replicate]
    | succ i' => simp [List.replicate, ih i']

theorem getD_set_ne (l : List Bool) (j i : Nat) (v : Bool) (h : i ≠ j) :
    (l.set j v).getD i false = l.getD i false := by
  induction l generalizing i j with
  | nil => simp
  | cons a t ih =>
    cases j with
    | zero =>
      cases i with
      | zero => exact absurd rfl h
      | succ i' => simp [List.set]
    | succ j' =>
      cases i with
      | zero => simp [List.set]
      | succ i' => simpa [List.set] using ih j' i' (fun hh => h (by rw [hh]))

theorem getD_set_false_self (l : List Bool) (j : Nat) :
    (l.set j false).getD j false = false := by
  induction l generalizing j with
  | nil => simp
  | cons a t ih =>
    cases j with
    | zero => simp [List.set]
    | succ j' => simpa [List.set] using ih j'

theorem findIdx_get_self (l : List String) (i : Nat) (hi : i < l.length)
    (hn : l.Nodup) : l.findIdx? (fun x => x == l[i]) = some i := by
  induction l generalizing i with
  | nil => exact absurd hi (by simp)
  | cons a t ih =>
    rw [List.nodup_cons] at hn
    cases i with
    | zero => simp [List.findIdx?_cons]
    | succ i' =>
      have hi' : i' < t.length := by simpa using hi
      have hget : (a :: t)[i' + 1] = t[i'] := by simp
      have hne : (a == t[i']) = false := by
        simp only [beq_eq_false_iff_ne, ne_eq]
        intro hcontra
        exact hn.1 (hcontra ▸ List.getElem_mem hi')
      rw [hget, List.findIdx?_cons, hne]
      simp [ih i' hi' hn.2]

theorem sessInv_init (n : Nat) : SessInv (SessState.init n) := by
  intro i hi
  rw [SessState.init] at hi
  simp only at hi
  rw [getD_replicate_false] at hi
  exact absurd hi (by simp)

theorem clickStep_focused (s : SessState) (j : Nat) :
    (clickStep s j).focused = some j := by
  unfold clickStep
  cases s.focused with
  | none =>
    by_cases hj : s.editing.getD j false = true
    · rw [if_pos hj]
    · rw [if_neg hj]
  | some i0 =>
    by_cases hj : s.editing.getD j false = true
    · rw [if_pos hj]
    · rw [if_neg hj]

theorem clickStep_pending_superset (s : SessState) (j x : Nat)
    (hx : x ∈ s.pending) : x ∈ (clickStep s j).pending := by
  unfold clickStep
  cases s.focused with
  | none =>
    by_cases hj : s.editing.getD j false = true
    · rw [if_pos hj]; exact hx
    · rw [if_neg hj]; exact hx
  | some i0 =>
    by_cases hj : s.editing.getD j false = true
    · rw [if_pos hj]
      dsimp only
      by_cases hij : i0 = j
      · rw [if_pos hij]; exact hx
      · rw [if_neg hij]; exact List.mem_append_left _ hx
    · rw [if_neg hj]
      dsimp only
      by_cases hij : i0 = j
      · rw [if_pos hij]; exact hx
      · rw [if_neg hij]; exact List.mem_append_left _ hx

theorem clickStep_pending_blur (s : SessState) (j i : Nat)
    (hf : s.focused = some i) (hij : i ≠ j) : i ∈ (clickStep s j).pending := by
  unfold clickStep
  rw [hf]
  by_cases hj : s.editing.getD j false = true
  · rw [if_pos hj]
    dsimp only
    rw [if_neg hij]
    exact List.mem_append_right _ (List.mem_singleton.mpr rfl)
  · rw [if_neg hj]
    dsimp only
    rw [if_neg hij]
    exact List.mem_append_right _ (List.mem_singleton.mpr rfl)

theorem clickStep_editing_ne (s : SessState) (j i : Nat) (hij : i ≠ j) :
    (clickStep s j).editing.getD i false = s.editing.getD i false := by
  unfold clickStep
  cases s.focused with
  | none =>
    by_cases hj : s.editing.getD j false = true
    · rw [if_pos hj]
    · rw [if_neg hj]
      exact getD_set_ne _ _ _ _ hij
  | some i0 =>
    by_cases hj : s.editing.getD j false = true
    · rw [if_pos hj]
    · rw [if_neg hj]
      exact getD_set_ne _ _ _ _ hij

theorem sessInv_click (s : SessState) (j : Nat) (h : SessInv s) :
    SessInv (clickStep s j) := by
  intro i hi
  by_cases hij : i = j
  · subst hij
    exact Or.inl (clickStep_focused s i)
  · rw [clickStep_editing_ne s j i hij] at hi
    rcases h i hi with hf | hp
    · exact Or.inr (clickStep_pending_blur s j i hf hij)
    · exact Or.inr (clickStep_pending_superset s j i hp)

theorem fireStep_nil (s : SessState) (hp : s.pending = []) : fireStep s = s := by
  unfold fireStep
  rw [hp]

theorem fireStep_cons_edit (s : SessState) (i0 : Nat) (rest : List Nat)
    (hp : s.pending = i0 :: rest) (he : s.editing.getD i0 false = true) :
    fireStep s =
      ⟨s.editing.set i0 false,
       if s.focused = some i0 then none else s.focused, rest⟩ := by
  unfold fireStep
  rw [hp]
  dsimp only
  rw [if_pos he]

theorem fireStep_cons_noedit (s : SessState) (i0 : Nat) (rest : List Nat)
    (hp : s.pending = i0 :: rest) (he : ¬s.editing.getD i0 false = true) :
    fireStep s = { s with pending := rest } := by
  unfold fireStep
  rw [hp]
  dsimp only
  rw [if_neg he]

theorem sessInv_fire (s : SessState) (h : SessInv s) : SessInv (fireStep s) := by
  intro i hi
  cases hp : s.pending with
  | nil =>
    rw [fireStep_nil s hp] at hi ⊢
    rcases h i hi with hf | hpp
    · exact Or.inl hf
    · rw [hp] at hpp
      exact absurd hpp (by simp)
  | cons i0 rest =>
    by_cases he : s.editing.getD i0 false = true
    · rw [fireStep_cons_edit s i0 rest hp he] at hi ⊢
      dsimp only at hi ⊢
      have hii0 : i ≠ i0 := by
        intro hcontra
        subst hcontra
        rw [getD_set_false_self] at hi
        exact absurd hi (by simp)
      rw [getD_set_ne _ _ _ _ hii0] at hi
      rcases h i hi with hf | hpp
      · left
        have hne : s.focused ≠ some i0 := by
          rw [hf]
          intro hc
          exact hii0 (Option.some_injective _ hc)
        rw [if_neg hne]
        exact hf
      · right
        rw [hp] at hpp
        rcases List.mem_cons.mp hpp with hc | hc
        · exact absurd hc hii0
        · exact hc
    · rw [fireStep_cons_noedit s i0 rest hp he] at hi ⊢
      dsimp only at hi ⊢
      rcases h i hi with hf | hpp
      · exact Or.inl hf
      · right
        rw [hp] at hpp
        rcases List.mem_cons.mp hpp with hc | hc
        · subst hc
          exact absurd hi he
        · exact hc

theorem sessInv_reach (n : Nat) (s : SessState) (h : Reach n s) : SessInv s := by
  induction h with
  | init => exact sessInv_init n
  | click s' j _ ih => exact sessInv_click s' j ih
  | fire s' _ ih => exact sessInv_fire s' ih

theorem saveValue_not_editing (dp : String → Bool) (dur : OptionRec → Q)
    (st : AppState) (c : Cell) (v : String) (h : c.isEditing = false) :
    saveValue dp dur st c v = ⟨st, c, false, []⟩ := by
  unfold saveValue
  rw [h, if_pos rfl]

theorem saveValue_invalid (dp : String → Bool) (dur : OptionRec → Q)
    (st : AppState) (c : Cell) (v : String) (hed : c.isEditing = true)
    (hval : validate dp c.fieldType v = false) :
    saveValue dp dur st c v =
      ⟨st, { c with isEditing := false, editingClass := false }, true, []⟩ := by
  unfold saveValue
  rw [hed, if_neg (by simp)]
  dsimp only
  rw [hval, if_pos rfl]
  unfold cancelEdit
  rw [if_pos rfl]

theorem saveValue_changed (dp : String → Bool) (dur : OptionRec → Q)
    (st : AppState) (c : Cell) (v : String) (hed : c.isEditing = true)
    (hval : validate dp c.fieldType v = true) (hne : v ≠ c.originalValue) :
    saveValue dp dur st c v =
      ⟨{ st with
          changes := mapSet st.changes (cellKey c) v,
          originalData :=
            if mapHas st.originalData (cellKey c) then st.originalData
            else mapSet st.originalData (cellKey c) c.originalValue },
        { c with
          isEditing := false, editingClass := false, currentValue := v,
          changedClass := true, display := Display.formatted v },
        false,
        updateDependentFields dur st.loadedOptions (mapSet st.changes (cellKey c) v)
          c.optionId c.fieldKey⟩ := by
  unfold saveValue
  rw [hed, if_neg (by simp)]
  dsimp only
  rw [hval, if_neg (by simp)]
  rw [if_pos hne]
  rfl

theorem saveValue_reverted (dp : String → Bool) (dur : OptionRec → Q)
    (st : AppState) (c : Cell) (v : String) (hed : c.isEditing = true)
    (hval : validate dp c.fieldType v = true) (heq : v = c.originalValue) :
    saveValue dp dur st c v =
      ⟨{ st with
          changes := mapDelete st.changes (cellKey c),
          originalData := mapDelete st.originalData (cellKey c) },
        { c with
          isEditing := false, editingClass := false, currentValue := v,
          changedClass := false, display := Display.formatted v },
        false,
        updateDependentFields dur st.loadedOptions (mapDelete st.changes (cellKey c))
          c.optionId c.fieldKey⟩ := by
  unfold saveValue
  rw [hed, if_neg (by simp)]
  dsimp only
  rw [hval, if_neg (by simp)]
  rw [if_neg (fun hC => hC heq)]
  rfl

/-- C1, counterexample: the spec claims a ChangeStore entry is present
if and only if the committed value differs from the original under the
field type equality rule, numeric equality for number fields.  Committing
`5.0` over original `5` on a number cell gives numerically equal values,
yet the source compares with strict string inequality and so inserts an
entry and sets the `changed` marker. -/
theorem c1_counterexample :
    specEqualUnderTypeRule FieldType.number "5.0" "5" = true ∧
    mapHas (saveValue dp0 dur0 emptyState numCell "5.0").state.changes "opt1::guests" = true ∧
    (saveValue dp0 dur0 emptyState numCell "5.0").cell.changedClass = true := by
  decide

/-- C1, amended: after a valid commit from Editing state, the ChangeStore
holds an entry for the cell key if and only if the committed value
differs from the original value under plain string equality (the same
rule for every field type), so a commit string-equal to the original
removes any existing entry; and the `changed` marker equals entry
presence. -/
theorem c1_amended (dp : String → Bool) (dur : OptionRec → Q) (st : AppState)
    (c : Cell) (v : String) (hed : c.isEditing = true)
    (hval : validate dp c.fieldType v = true) (hu : uniqKeys st.changes) :
    (mapHas (saveValue dp dur st c v).state.changes (cellKey c) = true ↔
      v ≠ c.originalValue) ∧
    (saveValue dp dur st c v).cell.changedClass =
      mapHas (saveValue dp dur st c v).state.changes (cellKey c) := by
  by_cases hne : v = c.originalValue
  · rw [saveValue_reverted dp dur st c v hed hval hne]
    dsimp only
    rw [mapHas_delete_self st.changes (cellKey c) hu]
    simp [hne]
  · rw [saveValue_changed dp dur st c v hed hval hne]
    dsimp only
    rw [mapHas_set_self]
    simp [hne]

/-- C1, witness: the amended theorem applied to a concrete divergent
commit of `7` over original `5` on the empty tracking state. -/
theorem c1_amended_witness :
    (mapHas (saveValue dp0 dur0 emptyState numCell "7").state.changes (cellKey numCell) = true ↔
      "7" ≠ numCell.originalValue) ∧
    (saveValue dp0 dur0 emptyState numCell "7").cell.changedClass =
      mapHas (saveValue dp0 dur0 emptyState numCell "7").state.changes (cellKey numCell) :=
  c1_amended dp0 dur0 emptyState numCell "7" rfl (by decide) List.nodup_nil

/-- C2, code bug: on an invalid commit (value `-1` on a number cell) the
toast is raised and nothing is committed — state, current value, changed
marker and update list are untouched — but the visible cell does NOT
revert to its pre-edit display: `saveValue` clears `isEditing` before
calling `cancelEdit`, whose guard then makes it return without restoring
`originalDisplayHTML`, so the editor input remains the cell content.
The spec (and the obvious intent of the `cancelEdit()` call on the
rejection path) requires the pre-edit display to be restored. -/
theorem c2_code_bug :
    (saveValue dp0 dur0 emptyState (enterEditMode viewCell) "-1").toast = true ∧
    (saveValue dp0 dur0 emptyState (enterEditMode viewCell) "-1").state = emptyState ∧
    (saveValue dp0 dur0 emptyState (enterEditMode viewCell) "-1").updates = [] ∧
    (saveValue dp0 dur0 emptyState (enterEditMode viewCell) "-1").cell.currentValue =
      (enterEditMode viewCell).currentValue ∧
    (saveValue dp0 dur0 emptyState (enterEditMode viewCell) "-1").cell.changedClass =
      (enterEditMode viewCell).changedClass ∧
    (saveValue dp0 dur0 emptyState (enterEditMode viewCell) "-1").cell.isEditing = false ∧
    (enterEditMode viewCell).originalDisplayHTML = Display.html "2" ∧
    (saveValue dp0 dur0 emptyState (enterEditMode viewCell) "-1").cell.display =
      Display.editor := by
  decide

/-- C3, counterexample: the claim requires a non-empty number value to
parse to a FINITE number at least 0, but the source validation accepts
the string `Infinity`, whose `parseFloat` result is positive infinity. -/
theorem c3_counterexample :
    validate dp0 FieldType.number "Infinity" = true ∧
    ¬ acceptsClaim dp0 FieldType.number "Infinity" := by
  refine ⟨by decide, ?_⟩
  intro h
  have h' : "Infinity" = "" ∨ ∃ q : Q, parseFloat "Infinity" = JSNum.fin q ∧ q.isNonneg = true := h
  rcases h' with h2 | ⟨q, hq, _⟩
  · exact absurd h2 (by decide)
  · rw [show parseFloat "Infinity" = JSNum.posInf by decide] at hq
    exact JSNum.noConfusion hq

/-- C3, amended: the source validation accepts a value exactly when the
per-type predicate holds, where for number and price fields a non-empty
value must parse to a number at least 0 with finiteness NOT enforced
(positive infinity accepted, NaN rejected); date accepts empty or a
parseable string; text and select accept everything. -/
theorem c3_amended (dp : String → Bool) (ft : FieldType) (v : String) :
    validate dp ft v = true ↔ acceptsAmended dp ft v := by
  cases ft with
  | text => simp [validate, acceptsAmended]
  | select => simp [validate, acceptsAmended]
  | date =>
    by_cases hv : v = "" <;> simp [validate, acceptsAmended, hv]
  | number =>
    by_cases hv : v = ""
    · simp [validate, acceptsAmended, hv]
    · cases hn : parseFloat v <;>
        simp [validate, acceptsAmended, hv, hn, JSNum.isNaNum, JSNum.geZero]
  | price =>
    by_cases hv : v = ""
    · simp [validate, acceptsAmended, hv]
    · cases hn : parseFloat v <;>
        simp [validate, acceptsAmended, hv, hn, JSNum.isNaNum, JSNum.geZero]

/-- C3, witness: the amended equivalence evaluated at a concrete finite
number value. -/
theorem c3_amended_witness :
    validate dp0 FieldType.number "5.0" = true ↔ acceptsAmended dp0 FieldType.number "5.0" :=
  c3_amended dp0 FieldType.number "5.0"

theorem numField_setField_ne (o : OptionRec) (k k' : String) (v : JSValue)
    (h : k' ≠ k) : numField (setField o k v) k' = numField o k' := by
  unfold numField getField setField
  dsimp only
  rw [mapGet_set_ne o.fields k k' v h]

theorem calcGrandTotal_setField_grandTotal (o : OptionRec) (v : JSValue) :
    calcGrandTotal (setField o "grandTotal" v) = calcGrandTotal o := by
  unfold calcGrandTotal
  rw [numField_setField_ne o "grandTotal" "packagePrice" v (by decide),
    numField_setField_ne o "grandTotal" "flightsTotal" v (by decide),
    numField_setField_ne o "grandTotal" "prePostHotelsTotal" v (by decide),
    numField_setField_ne o "grandTotal" "additionalCosts" v (by decide)]

theorem numField_freshWorking_grandTotal (o : OptionRec)
    (changes : List (String × String)) (optId : String) :
    numField (freshWorking o changes optId) "grandTotal" =
      calcGrandTotal (applyChanges o changes optId) := by
  unfold freshWorking numField getField setField
  dsimp only
  rw [mapGet_set_self]

/-- C4, counterexample: the claim says a committed change to
`flightsTotal` recomputes `grandTotal` (and then `pricePerPerson`), but
the trigger list of the source is `[packagePrice, flightsPrice, guests]`,
so a committed change to `flightsTotal` produces no recomputation at
all. -/
theorem c4_counterexample :
    (saveValue dp0 dur0 tripState ftCell "2000").state.changes =
      [("opt1::flightsTotal", "2000")] ∧
    (saveValue dp0 dur0 tripState ftCell "2000").updates = [] := by
  decide

/-- C4, amended: recomputation is driven by the source trigger lists —
a commit of `packagePrice`, `flightsPrice` or `guests` recomputes
`grandTotal` first and then `pricePerPerson` from the working option
carrying the freshly written-back `grandTotal` (a `guests` commit
recomputes `pricePerPerson` once more); a commit of `startDate` or
`endDate` recomputes `duration`; a commit of `flightsTotal`,
`prePostHotelsTotal` or `additionalCosts` recomputes nothing.  The
freshness equations state that the written-back `grandTotal` read by the
`pricePerPerson` compute equals the freshly recomputed sum, not the
stale stored field; on the concrete example entity (stale stored
`grandTotal` 5000) committing `packagePrice := 5000` yields
`grandTotal = 6000` and `pricePerPerson = 3000`. -/
theorem c4_amended (dur : OptionRec → Q) (opts : List OptionRec)
    (changes : List (String × String)) (optId : String) (o : OptionRec)
    (hfind : opts.find? (fun x => x.binId == optId) = some o) :
    ((updateDependentFields dur opts changes optId "packagePrice" =
        [("grandTotal", calcGrandTotal (freshWorking o changes optId)),
         ("pricePerPerson", calcPricePerPerson (freshWorking o changes optId))]) ∧
      (updateDependentFields dur opts changes optId "guests" =
        [("grandTotal", calcGrandTotal (freshWorking o changes optId)),
         ("pricePerPerson", calcPricePerPerson (freshWorking o changes optId)),
         ("pricePerPerson", calcPricePerPerson (freshWorking o changes optId))])) ∧
    (updateDependentFields dur opts changes optId "startDate" =
      [("duration", dur (applyChanges o changes optId))]) ∧
    (updateDependentFields dur opts changes optId "endDate" =
      [("duration", dur (applyChanges o changes optId))]) ∧
    (updateDependentFields dur opts changes optId "flightsTotal" = []) ∧
    (updateDependentFields dur opts changes optId "prePostHotelsTotal" = []) ∧
    (updateDependentFields dur opts changes optId "additionalCosts" = []) ∧
    (calcGrandTotal (freshWorking o changes optId) =
      calcGrandTotal (applyChanges o changes optId)) ∧
    (numField (freshWorking o changes optId) "grandTotal" =
      calcGrandTotal (applyChanges o changes optId)) ∧
    (saveValue dp0 dur0 tripState ppCell "5000").updates =
      [("grandTotal", Q.ofNat 6000), ("pricePerPerson", Q.ofNat 3000)] := by
  refine ⟨⟨?_, ?_⟩, ?_, ?_, ?_, ?_, ?_, ?_, ?_, by decide⟩
  · unfold updateDependentFields
    rw [hfind]
    rfl
  · unfold updateDependentFields
    rw [hfind]
    rfl
  · unfold updateDependentFields
    rw [hfind]
    rfl
  · unfold updateDependentFields
    rw [hfind]
    rfl
  · unfold updateDependentFields
    rw [hfind]
    rfl
  · unfold updateDependentFields
    rw [hfind]
    rfl
  · unfold updateDependentFields
    rw [hfind]
    rfl
  · exact calcGrandTotal_setField_grandTotal _ _
  · exact numField_freshWorking_grandTotal o changes optId

/-- C4, witness: the amended trigger behaviour applied to the concrete
example option. -/
theorem c4_amended_witness :
    updateDependentFields dur0 [tripOption] [] "opt1" "packagePrice" =
      [("grandTotal", calcGrandTotal (freshWorking tripOption [] "opt1")),
       ("pricePerPerson", calcPricePerPerson (freshWorking tripOption [] "opt1"))] :=
  (c4_amended dur0 [tripOption] [] "opt1" tripOption (by decide)).1.1

theorem saveValue_currentValue (dp : String → Bool) (dur : OptionRec → Q)
    (st : AppState) (c : Cell) (v : String) (hed : c.isEditing = true)
    (hval : validate dp c.fieldType v = true) :
    (saveValue dp dur st c v).cell.currentValue = v := by
  by_cases hne : v = c.originalValue
  · rw [saveValue_reverted dp dur st c v hed hval hne]
  · rw [saveValue_changed dp dur st c v hed hval hne]

/-- C5: after activating a cell, the Escape path runs only `cancelEdit`:
whatever was typed, the tracking state is returned untouched, no
dependent recomputation is produced, no toast is raised, the current
value is unchanged and the pre-activation display is restored. -/
theorem c5_cancel_frame (st : AppState) (c : Cell) (typed : String)
    (hview : c.isEditing = false) :
    (onEscape st (enterEditMode c) typed).state = st ∧
    (onEscape st (enterEditMode c) typed).updates = [] ∧
    (onEscape st (enterEditMode c) typed).toast = false ∧
    (onEscape st (enterEditMode c) typed).cell.currentValue = c.currentValue ∧
    (onEscape st (enterEditMode c) typed).cell.isEditing = false ∧
    (onEscape st (enterEditMode c) typed).cell.display = c.display := by
  unfold onEscape enterEditMode cancelEdit
  rw [hview]
  simp

/-- C5, witness: the cancellation frame property at a concrete viewing
cell with a discarded typed value. -/
theorem c5_cancel_frame_witness :
    (onEscape emptyState (enterEditMode viewCell) "discarded").state = emptyState :=
  (c5_cancel_frame emptyState viewCell "discarded" rfl).1

/-- C6: the list round-trip — a stored value `A, B, C` opens as the item
array `[A, B, C]` (split on commas, trimmed, empties dropped); removing
index 1 and committing through the list editor stores `A, C` (both as
the cell current value and as the ChangeStore entry); and in general the
committed string is every item trimmed, empties filtered out, joined
with a comma and space. -/
theorem c6_list_roundtrip (dp : String → Bool) (dur : OptionRec → Q)
    (st : AppState) (c : Cell) (items : List String)
    (hed : c.isEditing = true) (hft : c.fieldType = FieldType.text) :
    (saveListValue dp dur st c items).cell.currentValue =
      String.intercalate ", " ((items.map jsTrim).filter (fun v => v ≠ "")) ∧
    parseListValue "A, B, C" = ["A", "B", "C"] ∧
    (saveListValue dp0 dur0 emptyState listCell
        (removeListItem (parseListValue "A, B, C") 1)).cell.currentValue = "A, C" ∧
    mapGet (saveListValue dp0 dur0 emptyState listCell
        (removeListItem (parseListValue "A, B, C") 1)).state.changes "opt1::inclusions" =
      some "A, C" := by
  refine ⟨?_, by decide, by decide, by decide⟩
  unfold saveListValue
  exact saveValue_currentValue dp dur st c _ hed (by rw [hft]; rfl)

/-- C6, witness: the general commit serialization at a concrete item
array. -/
theorem c6_list_roundtrip_witness :
    (saveListValue dp0 dur0 emptyState listCell ["X"]).cell.currentValue =
      String.intercalate ", " (((["X"] : List String).map jsTrim).filter (fun v => v ≠ "")) :=
  (c6_list_roundtrip dp0 dur0 emptyState listCell ["X"] rfl rfl).1

/-- C7: navigation from the cell at index `i` of a row — forward (Tab or
Enter) targets index `i + 1` and does nothing past the last cell (no
wrap), reverse (Shift+Tab) targets index `i - 1` and does nothing before
the first; in the row `[a, b, c]`, committing `b` forward activates `c`
and committing `c` forward moves nowhere. -/
theorem c7_navigation (cells : List String) (i : Nat) (hi : i < cells.length)
    (hnd : cells.Nodup) :
    (moveToNextCell cells cells[i] false =
      if h : i + 1 < cells.length then some cells[i + 1] else none) ∧
    (moveToNextCell cells cells[i] true =
      if i = 0 then none else some cells[i - 1]) ∧
    moveToNextCell ["a", "b", "c"] "b" false = some "c" ∧
    moveToNextCell ["a", "b", "c"] "c" false = none ∧
    moveToNextCell ["a", "b", "c"] "a" true = none := by
  have hfind := findIdx_get_self cells i hi hnd
  refine ⟨?_, ?_, by decide, by decide, by decide⟩
  · unfold moveToNextCell
    rw [hfind]
    dsimp only
    by_cases h : i + 1 < cells.length
    · rw [if_neg (by omega : ¬i + 1 ≥ cells.length), dif_pos h]
      simp [List.get?_eq_getElem?, List.getElem?_eq_getElem, h]
    · rw [if_pos (by omega : i + 1 ≥ cells.length), dif_neg h]
      rw [if_neg Bool.false_ne_true]
  · unfold moveToNextCell
    rw [hfind]
    dsimp only
    by_cases h0 : i = 0
    · rw [if_pos h0, if_pos h0, if_pos rfl]
    · have hlt : i - 1 < cells.length := by omega
      rw [if_neg h0, if_neg h0]
      simp [List.get?_eq_getElem?, List.getElem?_eq_getElem, hlt]

/-- C7, witness: forward navigation from index 1 of the row
`[a, b, c]`. -/
theorem c7_navigation_witness :
    moveToNextCell ["a", "b", "c"] (["a", "b", "c"] : List String)[1] false =
      if h : 1 + 1 < (["a", "b", "c"] : List String).length
      then some (["a", "b", "c"] : List String)[1 + 1] else none :=
  (c7_navigation ["a", "b", "c"] 1 (by decide) (by decide)).1

/-- C8: dependent recomputation is strictly entity-scoped — the working
option only depends on the change entries whose key belongs to the
recomputed entity, so two change stores with the same entries for that
entity produce identical recomputation results, whatever entries they
hold for other entities. -/
theorem c8_entity_scoped (dur : OptionRec → Q) (opts : List OptionRec)
    (ch1 ch2 : List (String × String)) (optId fieldKey : String)
    (h : entriesFor optId ch1 = entriesFor optId ch2) :
    updateDependentFields dur opts ch1 optId fieldKey =
      updateDependentFields dur opts ch2 optId fieldKey := by
  have hac : ∀ o : OptionRec, applyChanges o ch1 optId = applyChanges o ch2 optId := by
    intro o
    rw [applyChanges_eq_foldl_entriesFor, applyChanges_eq_foldl_entriesFor, h]
  unfold updateDependentFields
  cases hf : opts.find? (fun o => o.binId == optId) with
  | none => rfl
  | some o =>
    dsimp only
    rw [hac o]

/-- C8, witness: two concrete change stores differing only in an entry
of another entity give the same recomputation for `opt1`. -/
theorem c8_entity_scoped_witness :
    updateDependentFields dur0 [tripOption] scopeChanges1 "opt1" "packagePrice" =
      updateDependentFields dur0 [tripOption] scopeChanges2 "opt1" "packagePrice" :=
  c8_entity_scoped dur0 [tripOption] scopeChanges1 scopeChanges2 "opt1" "packagePrice"
    (by decide)

/-- C9, counterexample: a state with TWO cells in Editing is reachable —
click cell 0, then click cell 1: the blur handler of cell 0 only
schedules its commit on a deferred task, while the click handler
activates cell 1 immediately, so until the timer fires both cells are
editing (editing flags `[true, true]`, focus on 1, a pending commit for
0).  The claim that every reachable state has at most one Editing cell
is therefore false. -/
theorem c9_counterexample :
    Reach 2 ⟨[true, true], some 1, [0]⟩ ∧
    ¬ atMostOneEditing ⟨[true, true], some 1, [0]⟩ := by
  constructor
  · have h : clickStep (clickStep (SessState.init 2) 0) 1 =
        (⟨[true, true], some 1, [0]⟩ : SessState) := by decide
    rw [← h]
    exact Reach.click _ 1 (Reach.click _ 0 Reach.init)
  · intro h
    exact absurd (h 0 1 rfl rfl) (by decide)

/-- C9, amended: clicking a second cell activates it immediately and
only schedules the first cell's blur-commit, so a transient state with
two Editing cells is reachable; but every Editing cell either holds the
focus or has a deferred commit pending, so in every reachable QUIESCENT
state — all deferred blur tasks having fired — at most one cell is in
Editing state. -/
theorem c9_amended (n : Nat) (s : SessState) (h : Reach n s)
    (hq : s.pending = []) : atMostOneEditing s := by
  intro i j hi hj
  rcases sessInv_reach n s h i hi with hfi | hpi
  · rcases sessInv_reach n s h j hj with hfj | hpj
    · exact Option.some_injective _ (hfi.symm.trans hfj)
    · rw [hq] at hpj
      exact absurd hpj (by simp)
  · rw [hq] at hpi
    exact absurd hpi (by simp)

/-- C9, witness: the quiescent state reached by click 0, click 1, then
the deferred commit of cell 0 firing, has at most one Editing cell. -/
theorem c9_amended_witness :
    atMostOneEditing ⟨[false, true], some 1, []⟩ := by
  have he : fireStep (clickStep (clickStep (SessState.init 2) 0) 1) =
      (⟨[false, true], some 1, []⟩ : SessState) := by decide
  have h : Reach 2 (⟨[false, true], some 1, []⟩ : SessState) := by
    rw [← he]
    exact Reach.fire _ (Reach.click _ 1 (Reach.click _ 0 Reach.init))
  exact c9_amended 2 _ h rfl

/-- C10: two-map consistency of the change tracker — starting from any
state where `AppState.changes` and `AppState.originalData` hold entries
for exactly the same keys (and each map has unique keys, the JS `Map`
representation invariant), a commit preserves that key agreement; keys
of other cells are untouched in both maps; a divergent commit writes the
new value into `changes` and anchors `originalData` at the pre-edit
original only when absent, never overwriting an existing anchor; and a
commit equal to the original deletes the key from both maps. -/
theorem c10_two_map_consistency (dp : String → Bool) (dur : OptionRec → Q)
    (st : AppState) (c : Cell) (v : String) (k : String)
    (hcons : ∀ k2 : String, mapHas st.changes k2 = mapHas st.originalData k2)
    (huc : uniqKeys st.changes) (huo : uniqKeys st.originalData) :
    (mapHas (saveValue dp dur st c v).state.changes k =
      mapHas (saveValue dp dur st c v).state.originalData k) ∧
    (k ≠ cellKey c →
      mapGet (saveValue dp dur st c v).state.changes k = mapGet st.changes k ∧
      mapGet (saveValue dp dur st c v).state.originalData k = mapGet st.originalData k) ∧
    (c.isEditing = true → validate dp c.fieldType v = true → v ≠ c.originalValue →
      mapGet (saveValue dp dur st c v).state.changes (cellKey c) = some v ∧
      mapGet (saveValue dp dur st c v).state.originalData (cellKey c) =
        (if mapHas st.originalData (cellKey c) then mapGet st.originalData (cellKey c)
         else some c.originalValue)) ∧
    (c.isEditing = true → validate dp c.fieldType v = true → v = c.originalValue →
      mapHas (saveValue dp dur st c v).state.changes (cellKey c) = false ∧
      mapHas (saveValue dp dur st c v).state.originalData (cellKey c) = false) := by
  by_cases hed : c.isEditing = true
  · by_cases hv : validate dp c.fieldType v = true
    · by_cases hne : v = c.originalValue
      · rw [saveValue_reverted dp dur st c v hed hv hne]
        dsimp only
        refine ⟨?_, ?_, ?_, ?_⟩
        · by_cases hk : k = cellKey c
          · subst hk
            rw [mapHas_delete_self st.changes (cellKey c) huc,
              mapHas_delete_self st.originalData (cellKey c) huo]
          · rw [mapHas_delete_ne st.changes (cellKey c) k hk,
              mapHas_delete_ne st.originalData (cellKey c) k hk]
            exact hcons k
        · intro hk
          exact ⟨mapGet_delete_ne st.changes (cellKey c) k hk,
            mapGet_delete_ne st.originalData (cellKey c) k hk⟩
        · intro _ _ habs
          exact absurd hne habs
        · intro _ _ _
          exact ⟨mapHas_delete_self st.changes (cellKey c) huc,
            mapHas_delete_self st.originalData (cellKey c) huo⟩
      · rw [saveValue_changed dp dur st c v hed hv hne]
        dsimp only
        refine ⟨?_, ?_, ?_, ?_⟩
        · by_cases hk : k = cellKey c
          · subst hk
            rw [mapHas_set_self st.changes (cellKey c) v]
            by_cases hh : mapHas st.originalData (cellKey c) = true
            · rw [if_pos hh, hh]
            · rw [if_neg hh, mapHas_set_self]
          · rw [mapHas_set_ne st.changes (cellKey c) k v hk]
            by_cases hh : mapHas st.originalData (cellKey c) = true
            · rw [if_pos hh]
              exact hcons k
            · rw [if_neg hh, mapHas_set_ne st.originalData (cellKey c) k c.originalValue hk]
              exact hcons k
        · intro hk
          refine ⟨mapGet_set_ne st.changes (cellKey c) k v hk, ?_⟩
          by_cases hh : mapHas st.originalData (cellKey c) = true
          · rw [if_pos hh]
          · rw [if_neg hh]
            exact mapGet_set_ne st.originalData (cellKey c) k c.originalValue hk
        · intro _ _ _
          refine ⟨mapGet_set_self st.changes (cellKey c) v, ?_⟩
          by_cases hh : mapHas st.originalData (cellKey c) = true
          · rw [if_pos hh, if_pos hh]
          · rw [if_neg hh, if_neg hh]
            exact mapGet_set_self st.originalData (cellKey c) c.originalValue
        · intro _ _ habs
          exact absurd habs hne
    · have hv2 : validate dp c.fieldType v = false := by
        cases hb : validate dp c.fieldType v
        · rfl
        · exact absurd hb hv
      rw [saveValue_invalid dp dur st c v hed hv2]
      dsimp only
      exact ⟨hcons k, fun _ => ⟨rfl, rfl⟩, fun _ hc _ => absurd hc hv,
        fun _ hc _ => absurd hc hv⟩
  · have hed2 : c.isEditing = false := by
      cases hb : c.isEditing
      · rfl
      · exact absurd hb hed
    rw [saveValue_not_editing dp dur st c v hed2]
    dsimp only
    exact ⟨hcons k, fun _ => ⟨rfl, rfl⟩, fun hc _ _ => absurd hc hed,
      fun hc _ _ => absurd hc hed⟩

/-- C10, witness: the two-map behaviour at a concrete second divergent
commit over a state already holding an anchored entry for the cell. -/
theorem c10_two_map_consistency_witness :
    mapHas (saveValue dp0 dur0 trackedState numCell "9").state.changes "opt1::guests" =
      mapHas (saveValue dp0 dur0 trackedState numCell "9").state.originalData "opt1::guests" :=
  (c10_two_map_consistency dp0 dur0 trackedState numCell "9" "opt1::guests"
    (fun _ => rfl) (by unfold uniqKeys; decide) (by unfold uniqKeys; decide)).1

end Forge

